import Mathlib

/-
Verification of the Coherence-Spectrogram-Viewer core against its design
specification.

Part 1 embeds `AtomicSynchronizer` (Source/AtomicSynchronizer.h): the five
index variables are modelled as integers with -1 denoting the empty slot,
exactly as in the C++; `pushWrite`, `updateReaderIndex`, the registration
counters and `reset` are translated statement by statement.  Since the C++
methods are sequences of atomic exchanges executed by a single thread per
role, each method is modelled as one atomic step on the state.

Part 2 embeds the accumulators and the analysis queries of `CumulativeTFR`
(Source/CumulativeTFR.h / .cpp) over exact rationals, and a small IEEE-style
value domain (`Fp`) for the NaN edge-case claim.
-/

/-- State of the five index variables of `AtomicSynchronizer`
(AtomicSynchronizer.h lines 392-397).  The C++ stores plain/atomic `int`;
-1 denotes an empty slot. -/
structure IdxState where
  readyToReadIndex : ℤ
  readyToWriteIndex : ℤ
  readyToWriteIndex2 : ℤ
  writerIndex : ℤ
  readerIndex : ℤ
deriving DecidableEq

/-- The pristine state established by `AtomicSynchronizer::reset`
(AtomicSynchronizer.h lines 282-286). -/
def pristineState : IdxState :=
  { readyToReadIndex := -1
    readyToWriteIndex := 0
    readyToWriteIndex2 := 1
    writerIndex := 2
    readerIndex := -1 }

/-- `AtomicSynchronizer::pushWrite` (AtomicSynchronizer.h lines 337-361):
exchange `writerIndex` into `readyToReadIndex`; if the value that came out
was -1, claim `readyToWriteIndex`, falling back to `readyToWriteIndex2`.
Each C++ `exchange` both writes the slot and returns its old value. -/
def pushWrite (s : IdxState) : IdxState :=
  let s1 : IdxState :=
    { s with readyToReadIndex := s.writerIndex, writerIndex := s.readyToReadIndex }
  if s1.writerIndex = -1 then
    let s2 : IdxState :=
      { s1 with writerIndex := s1.readyToWriteIndex, readyToWriteIndex := -1 }
    if s2.writerIndex = -1 then
      { s2 with writerIndex := s2.readyToWriteIndex2, readyToWriteIndex2 := -1 }
    else s2
  else s1

/-- `AtomicSynchronizer::updateReaderIndex` (AtomicSynchronizer.h lines
364-389): if `readyToReadIndex` is non-empty, park the current
`readerIndex` (when non-empty) into `readyToWriteIndex` via a
compare-and-swap expecting -1, otherwise store it into
`readyToWriteIndex2` unconditionally; then take `readyToReadIndex`,
leaving -1 behind. -/
def updateReaderIndex (s : IdxState) : IdxState :=
  if s.readyToReadIndex ≠ -1 then
    let s1 : IdxState :=
      if s.readerIndex ≠ -1 then
        if s.readyToWriteIndex = -1 then
          { s with readyToWriteIndex := s.readerIndex }
        else
          { s with readyToWriteIndex2 := s.readerIndex }
      else s
    { s1 with readerIndex := s1.readyToReadIndex, readyToReadIndex := -1 }
  else s

/-- `AtomicSynchronizer::hasUpdate` (AtomicSynchronizer.h lines 291-294). -/
def hasUpdate (s : IdxState) : Bool :=
  s.readyToReadIndex != -1

/-- Validity of a freshly constructed `AtomicallyShared<T>::ScopedReadPtr`
(AtomicSynchronizer.h lines 494-502): the embedded `ScopedReadIndex`
constructor runs `updateReaderIndex`, and the pointer is valid iff the
resulting `readerIndex` is not -1 (given that reader registration
succeeded). -/
def scopedReadPtrValid (s : IdxState) : Bool :=
  (updateReaderIndex s).readerIndex != -1

/-- The operations a registered writer / registered reader can perform on
the index state: `push` is `pushWrite` and `pull` is `updateReaderIndex`. -/
inductive SyncOp where
  | push
  | pull
deriving DecidableEq

/-- One operation applied to the index state. -/
def step (s : IdxState) (op : SyncOp) : IdxState :=
  match op with
  | SyncOp.push => pushWrite s
  | SyncOp.pull => updateReaderIndex s

/-- The index state after running a sequence of push/pull operations from
the pristine (reset) state. -/
def run (ops : List SyncOp) : IdxState :=
  ops.foldl step pristineState

/-- The list of the five index variables in declaration order. -/
def allFiveList (s : IdxState) : List ℤ :=
  [s.readyToReadIndex, s.readyToWriteIndex, s.readyToWriteIndex2,
   s.writerIndex, s.readerIndex]

/-- The multiset of values held by the five index variables, counting only
the non-empty (non -1) ones. -/
def occupied (s : IdxState) : Multiset ℤ :=
  ((allFiveList s).filter fun v => v != -1)

/-- The population invariant: the non-empty index variables hold exactly
the values 0, 1, 2, each exactly once. -/
def popInvariant (s : IdxState) : Prop :=
  occupied s = ({0, 1, 2} : Multiset ℤ)

instance instDecidablePopInvariant (s : IdxState) : Decidable (popInvariant s) :=
  inferInstanceAs (Decidable (occupied s = ({0, 1, 2} : Multiset ℤ)))

/-- Full synchronizer state: index variables plus the two registration
counters (`std::atomic<int> nWriters, nReaders`). -/
structure SyncState where
  idx : IdxState
  nWriters : ℤ
  nReaders : ℤ
deriving DecidableEq

/-- `AtomicSynchronizer::checkoutWriter` (AtomicSynchronizer.h lines
300-310): compare-and-swap `nWriters` from 0 to 1; returns whether
registration succeeded. -/
def checkoutWriter (s : SyncState) : Bool × SyncState :=
  if s.nWriters = 0 then (true, { s with nWriters := 1 }) else (false, s)

/-- `AtomicSynchronizer::returnWriter` (AtomicSynchronizer.h lines 312-315). -/
def returnWriter (s : SyncState) : SyncState :=
  { s with nWriters := 0 }

/-- `AtomicSynchronizer::checkoutReader` (AtomicSynchronizer.h lines
319-329). -/
def checkoutReader (s : SyncState) : Bool × SyncState :=
  if s.nReaders = 0 then (true, { s with nReaders := 1 }) else (false, s)

/-- `AtomicSynchronizer::returnReader` (AtomicSynchronizer.h lines 331-334). -/
def returnReader (s : SyncState) : SyncState :=
  { s with nReaders := 0 }

/-- `AtomicSynchronizer::reset` (AtomicSynchronizer.h lines 274-289): a
`ScopedLockout` attempts reader then writer registration; only if both
succeed are the five indices restored to the pristine values; the lockout
destructor releases whichever registrations it acquired. -/
def reset (s : SyncState) : Bool × SyncState :=
  let rRes := checkoutReader s
  let wRes := checkoutWriter rRes.2
  let valid := rRes.1 && wRes.1
  let s1 := if valid then { wRes.2 with idx := pristineState } else wRes.2
  let s2 := if rRes.1 then returnReader s1 else s1
  let s3 := if wRes.1 then returnWriter s2 else s2
  (valid, s3)

/-- Complex numbers with exact rational components, standing for
`std::complex<double>` in `CumulativeTFR`. -/
structure CQ where
  re : ℚ
  im : ℚ
deriving DecidableEq

/-- The value-initialized complex zero, `std::complex<double>()`. -/
def CQ.zero : CQ := { re := 0, im := 0 }

/-- Complex addition. -/
def CQ.add (x y : CQ) : CQ := { re := x.re + y.re, im := x.im + y.im }

/-- Complex multiplication. -/
def CQ.mul (x y : CQ) : CQ :=
  { re := x.re * y.re - x.im * y.im, im := x.re * y.im + x.im * y.re }

/-- Complex conjugate, `std::conj`. -/
def CQ.conj (x : CQ) : CQ := { re := x.re, im := -x.im }

/-- Scaling by a real factor, as in `(1 - alpha) * sum`. -/
def CQ.smul (r : ℚ) (x : CQ) : CQ := { re := r * x.re, im := r * x.im }

/-- `std::norm`: the squared magnitude. -/
def CQ.normSq (x : CQ) : ℚ := x.re * x.re + x.im * x.im

/-- Division of a complex value by a real denominator,
as in `sum / (double)count`. -/
def CQ.divReal (x : CQ) (r : ℚ) : CQ := { re := x.re / r, im := x.im / r }

/-- Conversion of a real value to an unsigned integer count, as a C++
`double`-to-`size_t` conversion performs it: truncation toward zero
(`Int.div` is T-division).  The values arising here are nonnegative, so
this coincides with the floor; a negative value (impossible for
alpha in [0,1]) would be undefined behavior in C++ and is clamped to 0
here. -/
def truncCount (q : ℚ) : ℕ := (Int.tdiv q.num (q.den : ℤ)).toNat

/-- `CumulativeTFR::RealWeightedAccum` (CumulativeTFR.h lines 72-96).
The C++ declares `double sum; size_t count;`; assigning the `double`
expression `1 + (1 - alpha) * count` to the `size_t` member truncates
toward zero.  `alpha` is a `const double` fixed at construction. -/
structure RealWeightedAccum where
  sum : ℚ
  count : ℕ
  alpha : ℚ
deriving DecidableEq

/-- The constructor `RealWeightedAccum(double alpha)`: `count(0), sum(0)`. -/
def RealWeightedAccum.init (alpha : ℚ) : RealWeightedAccum :=
  { sum := 0, count := 0, alpha := alpha }

/-- `RealWeightedAccum::getAverage`: `count > 0 ? sum / (double)count : double()`. -/
def RealWeightedAccum.getAverage (a : RealWeightedAccum) : ℚ :=
  if 0 < a.count then a.sum / (a.count : ℚ) else 0

/-- `RealWeightedAccum::addValue`: `sum = x + (1 - alpha) * sum;`
`count = 1 + (1 - alpha) * count;` where the `count` assignment goes
through the `size_t` member, truncating the real value. -/
def RealWeightedAccum.addValue (a : RealWeightedAccum) (x : ℚ) : RealWeightedAccum :=
  { a with
    sum := x + (1 - a.alpha) * a.sum
    count := truncCount ((1 : ℚ) + (1 - a.alpha) * (a.count : ℚ)) }

/-- `CumulativeTFR::ComplexWeightedAccum` (CumulativeTFR.h lines 45-69).
Same algorithm with a `std::complex<double>` sum and a `size_t` count. -/
structure ComplexWeightedAccum where
  sum : CQ
  count : ℕ
  alpha : ℚ
deriving DecidableEq

/-- The constructor `ComplexWeightedAccum(double alpha)`: `count(0), sum(0, 0)`. -/
def ComplexWeightedAccum.init (alpha : ℚ) : ComplexWeightedAccum :=
  { sum := CQ.zero, count := 0, alpha := alpha }

/-- `ComplexWeightedAccum::getAverage`:
`count > 0 ? sum / (double)count : std::complex<double>()`. -/
def ComplexWeightedAccum.getAverage (a : ComplexWeightedAccum) : CQ :=
  if 0 < a.count then a.sum.divReal (a.count : ℚ) else CQ.zero

/-- `ComplexWeightedAccum::addValue`. -/
def ComplexWeightedAccum.addValue (a : ComplexWeightedAccum) (x : CQ) : ComplexWeightedAccum :=
  { a with
    sum := x.add (CQ.smul (1 - a.alpha) a.sum)
    count := truncCount ((1 : ℚ) + (1 - a.alpha) * (a.count : ℚ)) }

/-- The specification's accumulator, for comparison with the code's: the
spec states `addValue(x)` performs `count = 1 + (1-alpha)*count` where
`count` is a real number, not an integer, by construction.  This
definition follows the spec's words; `RealWeightedAccum` above follows
the code. -/
structure RealWeightedAccumSpec where
  sum : ℚ
  count : ℚ
  alpha : ℚ
deriving DecidableEq

/-- Spec accumulator: initial state. -/
def RealWeightedAccumSpec.init (alpha : ℚ) : RealWeightedAccumSpec :=
  { sum := 0, count := 0, alpha := alpha }

/-- Spec accumulator: `sum = x + (1-alpha)*sum; count = 1 + (1-alpha)*count`
with a real-valued count. -/
def RealWeightedAccumSpec.addValueSpec (a : RealWeightedAccumSpec) (x : ℚ) :
    RealWeightedAccumSpec :=
  { a with
    sum := x + (1 - a.alpha) * a.sum
    count := 1 + (1 - a.alpha) * a.count }

/-- Spec accumulator: `sum/count` if `count > 0`, else zero. -/
def RealWeightedAccumSpec.getAverageSpec (a : RealWeightedAccumSpec) : ℚ :=
  if 0 < a.count then a.sum / a.count else 0

/-- Modelled from the spec: `RealAccum` in `CumulativeTFR` is
`StatisticsAccumulator<double>`, a host-framework class whose source is
not part of this repository.  Per the spec, the per-frequency coherence
output is the mean of the per-time-bin coherence values and the variance
estimate carries a Bessel correction `Var * nTimes / (nTimes - 1)`; the
accumulator is modelled as a running count / sum / sum-of-squares
statistics accumulator with mean `sum/count` and population variance
`(sumSquares - sum^2/count)/count` (zero while empty). -/
structure RealAccum where
  count : ℕ
  sum : ℚ
  sumSquares : ℚ
deriving DecidableEq

/-- Modelled from the spec: empty statistics accumulator. -/
def RealAccum.init : RealAccum := { count := 0, sum := 0, sumSquares := 0 }

/-- Modelled from the spec: record one value. -/
def RealAccum.addValue (a : RealAccum) (x : ℚ) : RealAccum :=
  { count := a.count + 1, sum := a.sum + x, sumSquares := a.sumSquares + x * x }

/-- Modelled from the spec: the mean of the recorded values. -/
def RealAccum.getAverage (a : RealAccum) : ℚ :=
  if 0 < a.count then a.sum / (a.count : ℚ) else 0

/-- Modelled from the spec: the population variance of the recorded values. -/
def RealAccum.getVariance (a : RealAccum) : ℚ :=
  if 0 < a.count then (a.sumSquares - a.sum * a.sum / (a.count : ℚ)) / (a.count : ℚ) else 0

/-- The fields of `CumulativeTFR` (CumulativeTFR.h lines 132-143) used by
the verified queries: the per-(channel, frequency, time) spectrum buffer,
the per-(combination, frequency, time) cross-spectrum accumulators, the
per-(channel, frequency, time) power accumulators, and the wavelet array.
Sizes are carried as type-level parameters; the remaining configuration
scalars do not enter the verified operations. -/
structure TFRState (nChans nFreqs nTimes nCombs : ℕ) where
  spectrumBuffer : Fin nChans → Fin nFreqs → Fin nTimes → CQ
  pxys : Fin nCombs → Fin nFreqs → Fin nTimes → ComplexWeightedAccum
  powBuffer : Fin nChans → Fin nFreqs → Fin nTimes → RealWeightedAccum
  waveletArray : Fin nFreqs → List CQ

/-- `CumulativeTFR::singleCoherence` (CumulativeTFR.cpp lines 163-166):
`std::norm(pxy) / (pxx * pyy)`, over exact rationals. -/
def singleCoherence (pxx pyy : ℚ) (pxy : CQ) : ℚ :=
  pxy.normSq / (pxx * pyy)

/-- `CumulativeTFR::getMeanCoherence` (CumulativeTFR.cpp lines 93-133).
The first loop accumulates `spectrumBuffer[itX][f][t] *
conj(spectrumBuffer[itY][f][t])` into `pxys[comb][f][t]` for every
frequency and time; the second loop folds, per frequency, the
per-time-bin coherence values into a `RealAccum` and emits its mean into
`meanDest[f]` and, into the (unused) `stdDest[f]`, zero when `nTimes < 2`
and otherwise the Bessel-corrected variance estimate
`getVariance() * nTimes / (nTimes - 1)` (whose square root the code
takes; the estimate under the root is returned here).  The result is
`(meanDest, variance estimate, updated state)`. -/
def getMeanCoherence {nChans nFreqs nTimes nCombs : ℕ}
    (itX itY : Fin nChans) (comb : Fin nCombs)
    (s : TFRState nChans nFreqs nTimes nCombs) :
    (Fin nFreqs → ℚ) × (Fin nFreqs → ℚ) × TFRState nChans nFreqs nTimes nCombs :=
  let s1 : TFRState nChans nFreqs nTimes nCombs :=
    { s with pxys := fun cb f t =>
        if cb = comb then
          ((s.pxys cb f t).addValue
            ((s.spectrumBuffer itX f t).mul ((s.spectrumBuffer itY f t).conj)))
        else s.pxys cb f t }
  let cohAcc : Fin nFreqs → RealAccum := fun f =>
    (List.finRange nTimes).foldl
      (fun acc t =>
        acc.addValue (singleCoherence ((s1.powBuffer itX f t).getAverage)
          ((s1.powBuffer itY f t).getAverage) ((s1.pxys comb f t).getAverage)))
      RealAccum.init
  (fun f => (cohAcc f).getAverage,
   fun f =>
     if nTimes < 2 then 0
     else (cohAcc f).getVariance * (nTimes : ℚ) / ((nTimes : ℚ) - 1),
   s1)

/-- `CumulativeTFR::getPowerForChannels` (CumulativeTFR.cpp lines 135-157):
for each channel and frequency, sum `powBuffer[chn][frq][pr].getAverage()`
over the time bins (via the local `Totalpower` array, initialized to zero)
and divide by the number of time bins.  The method reads the accumulators
only through `getAverage`, which mutates nothing; the state component of
the result records its (absent) effect on the object. -/
def getPowerForChannels {nChans nFreqs nTimes nCombs : ℕ}
    (s : TFRState nChans nFreqs nTimes nCombs) :
    (Fin nChans → Fin nFreqs → ℚ) × TFRState nChans nFreqs nTimes nCombs :=
  (fun chn frq =>
    ((List.finRange nTimes).foldl
      (fun avg pr => avg + ((0 : ℚ) + (s.powBuffer chn frq pr).getAverage)) 0)
      / (nTimes : ℚ),
   s)

/-- IEEE-754-style value domain for the NaN edge-case claim: an exact
rational, a signed infinity, or NaN.  The exact doubles produced by the
zero-power scenario are representable, so only the special values need
modelling. -/
inductive Fp where
  | num (q : ℚ)
  | posInf
  | negInf
  | nan
deriving DecidableEq

/-- IEEE addition on the modelled domain. -/
def Fp.add : Fp → Fp → Fp
  | Fp.nan, _ => Fp.nan
  | _, Fp.nan => Fp.nan
  | Fp.num a, Fp.num b => Fp.num (a + b)
  | Fp.num _, Fp.posInf => Fp.posInf
  | Fp.posInf, Fp.num _ => Fp.posInf
  | Fp.num _, Fp.negInf => Fp.negInf
  | Fp.negInf, Fp.num _ => Fp.negInf
  | Fp.posInf, Fp.posInf => Fp.posInf
  | Fp.negInf, Fp.negInf => Fp.negInf
  | Fp.posInf, Fp.negInf => Fp.nan
  | Fp.negInf, Fp.posInf => Fp.nan

/-- IEEE multiplication on the modelled domain (zero times infinity is
NaN). -/
def Fp.mul : Fp → Fp → Fp
  | Fp.nan, _ => Fp.nan
  | _, Fp.nan => Fp.nan
  | Fp.num a, Fp.num b => Fp.num (a * b)
  | Fp.num a, Fp.posInf =>
      if a = 0 then Fp.nan else if 0 < a then Fp.posInf else Fp.negInf
  | Fp.posInf, Fp.num b =>
      if b = 0 then Fp.nan else if 0 < b then Fp.posInf else Fp.negInf
  | Fp.num a, Fp.negInf =>
      if a = 0 then Fp.nan else if 0 < a then Fp.negInf else Fp.posInf
  | Fp.negInf, Fp.num b =>
      if b = 0 then Fp.nan else if 0 < b then Fp.negInf else Fp.posInf
  | Fp.posInf, Fp.posInf => Fp.posInf
  | Fp.negInf, Fp.negInf => Fp.posInf
  | Fp.posInf, Fp.negInf => Fp.negInf
  | Fp.negInf, Fp.posInf => Fp.negInf

/-- IEEE division on the modelled domain: zero over zero is NaN, a
nonzero numerator over zero is a signed infinity (the rational domain has
no negative zero), infinity over infinity is NaN. -/
def Fp.div : Fp → Fp → Fp
  | Fp.nan, _ => Fp.nan
  | _, Fp.nan => Fp.nan
  | Fp.num a, Fp.num b =>
      if b = 0 then
        if a = 0 then Fp.nan else if 0 < a then Fp.posInf else Fp.negInf
      else Fp.num (a / b)
  | Fp.num _, Fp.posInf => Fp.num 0
  | Fp.num _, Fp.negInf => Fp.num 0
  | Fp.posInf, Fp.num b => if 0 ≤ b then Fp.posInf else Fp.negInf
  | Fp.negInf, Fp.num b => if 0 ≤ b then Fp.negInf else Fp.posInf
  | Fp.posInf, Fp.posInf => Fp.nan
  | Fp.posInf, Fp.negInf => Fp.nan
  | Fp.negInf, Fp.posInf => Fp.nan
  | Fp.negInf, Fp.negInf => Fp.nan

/-- A complex value with floating-point components. -/
structure FpC where
  re : Fp
  im : Fp
deriving DecidableEq

/-- `std::norm` over the floating-point domain: `re*re + im*im`. -/
def FpC.normSq (z : FpC) : Fp := (z.re.mul z.re).add (z.im.mul z.im)

/-- `CumulativeTFR::singleCoherence` over the floating-point domain:
`std::norm(pxy) / (pxx * pyy)` (CumulativeTFR.cpp lines 163-166). -/
def singleCoherenceFp (pxx pyy : Fp) (pxy : FpC) : Fp :=
  (FpC.normSq pxy).div (pxx.mul pyy)

/-- The floating-point mean of a list of values, sum first and one
division by the count, as `RealAccum.getAverage` computes it inside
`getMeanCoherence`. -/
def FpMean (l : List Fp) : Fp :=
  (l.foldl Fp.add (Fp.num 0)).div (Fp.num (l.length : ℚ))

/-- Any value held in one of the five index variables of a state
satisfying the population invariant is -1, 0, 1 or 2. -/
theorem popInv_vals (a b c d e : ℤ)
    (h : popInvariant (IdxState.mk a b c d e)) :
    (a = -1 ∨ a = 0 ∨ a = 1 ∨ a = 2) ∧ (b = -1 ∨ b = 0 ∨ b = 1 ∨ b = 2) ∧
    (c = -1 ∨ c = 0 ∨ c = 1 ∨ c = 2) ∧ (d = -1 ∨ d = 0 ∨ d = 1 ∨ d = 2) ∧
    (e = -1 ∨ e = 0 ∨ e = 1 ∨ e = 2) := by
  replace h : occupied (IdxState.mk a b c d e) = ({0, 1, 2} : Multiset ℤ) := h
  have key : ∀ v : ℤ, v ∈ [a, b, c, d, e] → v = -1 ∨ v = 0 ∨ v = 1 ∨ v = 2 := by
    intro v hv
    by_cases hne : v = -1
    · exact Or.inl hne
    · right
      have hvocc : v ∈ occupied (IdxState.mk a b c d e) := by
        simp only [occupied, allFiveList, Multiset.mem_coe, List.mem_filter]
        exact ⟨hv, by simpa using hne⟩
      rw [h] at hvocc
      simpa using hvocc
  refine ⟨key a ?_, key b ?_, key c ?_, key d ?_, key e ?_⟩ <;> simp

/-- One registered-role operation (a push by the writer or a pull by the
reader) preserves the population invariant together with non-emptiness of
`writerIndex`. -/
theorem step_pres (op : SyncOp) (a b c d e : ℤ)
    (h : popInvariant (IdxState.mk a b c d e)) (hw : d ≠ -1) :
    popInvariant (step (IdxState.mk a b c d e) op) ∧
    (step (IdxState.mk a b c d e) op).writerIndex ≠ -1 := by
  obtain ⟨ha, hb, hc, hd, he⟩ := popInv_vals a b c d e h
  cases op <;>
    (rcases ha with rfl | rfl | rfl | rfl <;>
     rcases hb with rfl | rfl | rfl | rfl <;>
     rcases hc with rfl | rfl | rfl | rfl <;>
     rcases hd with rfl | rfl | rfl | rfl <;>
     rcases he with rfl | rfl | rfl | rfl <;>
     revert h hw <;> decide)

/-- The population invariant and writer non-emptiness carry over any
sequence of push/pull operations. -/
theorem foldl_inv (ops : List SyncOp) (s : IdxState)
    (h : popInvariant s) (hw : s.writerIndex ≠ -1) :
    popInvariant (ops.foldl step s) ∧ (ops.foldl step s).writerIndex ≠ -1 := by
  induction ops generalizing s with
  | nil => exact ⟨h, hw⟩
  | cons op rest ih =>
      obtain ⟨a, b, c, d, e⟩ := s
      obtain ⟨h1, h2⟩ := step_pres op a b c d e h hw
      simpa using ih (step (IdxState.mk a b c d e) op) h1 h2

/-- C1: for every sequence of pushUpdate/pullUpdate operations by the
registered writer and reader starting from the reset state, the multiset
of values held by the five index variables, counting only the non-empty
(non -1) ones, is exactly the set 0, 1, 2, each value appearing exactly
once. -/
theorem run_popInvariant (ops : List SyncOp) : popInvariant (run ops) :=
  (foldl_inv ops pristineState (by decide) (by decide)).1

/-- C2: called in a state satisfying the population invariant with a
non-empty `writerIndex`, `pushWrite` swaps `writerIndex` into
`readyToReadIndex`; the new `writerIndex` is the old `readyToReadIndex`
if that was non-empty, otherwise the non-empty one of
`readyToWriteIndex` / `readyToWriteIndex2` (trying the first, falling
back to the second); and the resulting `writerIndex` is never empty, so
the assertion closing `pushWrite` cannot fail. -/
theorem pushWrite_post (a b c d e : ℤ)
    (h : popInvariant (IdxState.mk a b c d e)) (hw : d ≠ -1) :
    (pushWrite (IdxState.mk a b c d e)).readyToReadIndex = d ∧
    (pushWrite (IdxState.mk a b c d e)).writerIndex =
      (if a ≠ -1 then a else if b ≠ -1 then b else c) ∧
    (pushWrite (IdxState.mk a b c d e)).writerIndex ≠ -1 := by
  obtain ⟨ha, hb, hc, hd, he⟩ := popInv_vals a b c d e h
  rcases ha with rfl | rfl | rfl | rfl <;>
    rcases hb with rfl | rfl | rfl | rfl <;>
    rcases hc with rfl | rfl | rfl | rfl <;>
    rcases hd with rfl | rfl | rfl | rfl <;>
    rcases he with rfl | rfl | rfl | rfl <;>
    revert h hw <;> decide

/-- Witness for C2 at the pristine state, whose writer index is 2. -/
theorem pushWrite_post_witness :
    (pushWrite pristineState).readyToReadIndex = 2 ∧
    (pushWrite pristineState).writerIndex =
      (if (-1 : ℤ) ≠ -1 then -1 else if (0 : ℤ) ≠ -1 then 0 else 1) ∧
    (pushWrite pristineState).writerIndex ≠ -1 :=
  pushWrite_post (-1) 0 1 2 (-1) (by decide) (by decide)

/-- C6: `reset` returns false and leaves the state untouched when a
reader or writer registration is held, and otherwise returns true having
re-established the pristine index assignment (readyToRead empty,
readyToWrite = 0, readyToWrite2 = 1, writerIndex = 2, readerIndex
empty) with both registration counters released. -/
theorem reset_spec (s : SyncState) :
    reset s =
      if s.nReaders = 0 ∧ s.nWriters = 0 then
        (true, SyncState.mk pristineState 0 0)
      else (false, s) := by
  obtain ⟨idx, nw, nr⟩ := s
  by_cases hr : nr = 0 <;> by_cases hw : nw = 0 <;>
    simp [reset, checkoutReader, checkoutWriter, returnReader, returnWriter,
      hr, hw]

/-- A sequence of operations containing no push leaves the index state
pristine: a pull finds `readyToReadIndex` empty and does nothing. -/
theorem run_noPush (ops : List SyncOp) (h : SyncOp.push ∉ ops) :
    run ops = pristineState := by
  induction ops with
  | nil => rfl
  | cons op rest ih =>
      cases op with
      | push => exact absurd (List.mem_cons_self _ _) h
      | pull =>
          have hstep : step pristineState SyncOp.pull = pristineState := by decide
          have h2 : SyncOp.push ∉ rest := fun hm => h (List.mem_cons_of_mem _ hm)
          calc run (SyncOp.pull :: rest)
              = rest.foldl step pristineState := by
                simp [run, List.foldl_cons, hstep]
            _ = pristineState := ih h2

/-- C7: after any sequence of operations in which no push has ever
occurred, `readerIndex` is still empty, `readyToReadIndex` is still
empty, and a `ScopedReadPtr` constructed on the shared object (whose
constructor performs a pull) is invalid; further pulls are covered
because the operation sequence is arbitrary. -/
theorem readBeforeWrite_invalid (ops : List SyncOp) (h : SyncOp.push ∉ ops) :
    (run ops).readerIndex = -1 ∧ (run ops).readyToReadIndex = -1 ∧
    scopedReadPtrValid (run ops) = false := by
  rw [run_noPush ops h]
  decide

/-- Witness for C7 on two consecutive pulls. -/
theorem readBeforeWrite_invalid_witness :
    (run [SyncOp.pull, SyncOp.pull]).readerIndex = -1 ∧
    (run [SyncOp.pull, SyncOp.pull]).readyToReadIndex = -1 ∧
    scopedReadPtrValid (run [SyncOp.pull, SyncOp.pull]) = false :=
  readBeforeWrite_invalid [SyncOp.pull, SyncOp.pull] (by decide)

/-- C9: in every reachable state the writer's index is non-empty, so a
push always exchanges a non-empty value into `readyToReadIndex` (hence
`hasUpdate` holds right after a push and a push can never turn
`hasUpdate` off); only the reader's pull empties `readyToReadIndex`, and
when an update is available the pull adopts exactly that index as the
new `readerIndex`. -/
theorem pushNeverEmptiesReadySlot (ops : List SyncOp) :
    (run ops).writerIndex ≠ -1 ∧
    (pushWrite (run ops)).readyToReadIndex = (run ops).writerIndex ∧
    hasUpdate (pushWrite (run ops)) = true ∧
    (updateReaderIndex (run ops)).readyToReadIndex = -1 ∧
    (updateReaderIndex (run ops)).readerIndex =
      (if (run ops).readyToReadIndex ≠ -1 then (run ops).readyToReadIndex
       else (run ops).readerIndex) := by
  obtain ⟨hinv0, hw0⟩ := foldl_inv ops pristineState (by decide) (by decide)
  have hinv : popInvariant (run ops) := hinv0
  have hw : (run ops).writerIndex ≠ -1 := hw0
  clear hinv0 hw0
  revert hinv hw
  generalize run ops = s
  obtain ⟨a, b, c, d, e⟩ := s
  intro hinv hw
  obtain ⟨ha, hb, hc, hd, he⟩ := popInv_vals a b c d e hinv
  rcases ha with rfl | rfl | rfl | rfl <;>
    rcases hb with rfl | rfl | rfl | rfl <;>
    rcases hc with rfl | rfl | rfl | rfl <;>
    rcases hd with rfl | rfl | rfl | rfl <;>
    rcases he with rfl | rfl | rfl | rfl <;>
    revert hinv hw <;> decide

/-- Truncation fixes natural numbers. -/
theorem truncCount_natCast (n : ℕ) : truncCount ((n : ℕ) : ℚ) = n := by
  simp [truncCount, Rat.num_natCast, Rat.den_natCast, Int.tdiv_one]

/-- On nonnegative rationals, truncation toward zero is the floor. -/
theorem truncCount_eq_floor_toNat (q : ℚ) (hq : 0 ≤ q) :
    truncCount q = (⌊q⌋).toNat := by
  have hnum : 0 ≤ q.num := Rat.num_nonneg.mpr hq
  have hden : (0 : ℤ) ≤ (q.den : ℤ) := Int.natCast_nonneg _
  rw [truncCount, Int.tdiv_eq_ediv hnum hden, ← Rat.floor_def]

/-- Truncating `1 + count` for a nonnegative integer count just increments
it: the `size_t` count behaves exactly like the spec's real count when
alpha = 0. -/
theorem truncCount_one_add_nat (n : ℕ) : truncCount ((1 : ℚ) + (n : ℚ)) = n + 1 := by
  have h : (1 : ℚ) + (n : ℚ) = ((n + 1 : ℕ) : ℚ) := by push_cast; ring
  rw [h, truncCount_natCast]

/-- C3 counterexample: with alpha = 1/2 and two `addValue(1)` calls, the
code's `size_t count` is 1 where the claimed real-valued recurrence
`count = 1 + (1-alpha)*count` yields 3/2, and the averages of the code
accumulator and of the spec's real-count accumulator differ (3/2 versus
1): `count` is an integer in the code, not a real number. -/
theorem accumCount_not_real :
    (((RealWeightedAccum.init (1/2)).addValue 1).addValue 1).count = 1 ∧
    ((((RealWeightedAccum.init (1/2)).addValue 1).addValue 1).count : ℚ) ≠
      1 + (1 - (1/2 : ℚ)) * ((((RealWeightedAccum.init (1/2)).addValue 1).count : ℚ)) ∧
    (((RealWeightedAccum.init (1/2)).addValue 1).addValue 1).getAverage = 3/2 ∧
    (((RealWeightedAccumSpec.init (1/2)).addValueSpec 1).addValueSpec 1).getAverageSpec = 1 := by
  have e1 : (RealWeightedAccum.init (1/2)).addValue 1 = RealWeightedAccum.mk 1 1 (1/2) := by
    simp only [RealWeightedAccum.addValue, RealWeightedAccum.init, RealWeightedAccum.mk.injEq]
    refine ⟨by norm_num, ?_, trivial⟩
    have h : (1 : ℚ) + (1 - 1/2) * ((0 : ℕ) : ℚ) = ((1 : ℕ) : ℚ) := by push_cast; norm_num
    rw [h, truncCount_natCast]
  have e2 : (RealWeightedAccum.mk (1 : ℚ) 1 (1/2)).addValue 1
      = RealWeightedAccum.mk (3/2) 1 (1/2) := by
    simp only [RealWeightedAccum.addValue, RealWeightedAccum.mk.injEq]
    refine ⟨by norm_num, ?_, trivial⟩
    have h : (1 : ℚ) + (1 - 1/2) * ((1 : ℕ) : ℚ) = 3/2 := by push_cast; norm_num
    rw [h, truncCount_eq_floor_toNat _ (by norm_num)]
    rw [show ⌊(3/2 : ℚ)⌋ = 1 from by norm_num]
    rfl
  rw [e1, e2]
  refine ⟨rfl, by norm_num, ?_, ?_⟩
  · simp [RealWeightedAccum.getAverage]
  · norm_num [RealWeightedAccumSpec.init, RealWeightedAccumSpec.addValueSpec,
      RealWeightedAccumSpec.getAverageSpec]

/-- C3 (amended): for both accumulator flavors, `addValue(x)` updates
`sum = x + (1-alpha)*sum` and stores `1 + (1-alpha)*count` truncated into
the integer (`size_t`) member `count`, and `getAverage()` returns
`sum/count` when `count > 0` and the domain's zero value otherwise; the
integer count agrees with the claimed real-valued recurrence exactly when
alpha = 0. -/
theorem accum_reference_defs (a : RealWeightedAccum) (x : ℚ)
    (ca : ComplexWeightedAccum) (cx : CQ) :
    (a.addValue x).sum = x + (1 - a.alpha) * a.sum ∧
    (a.addValue x).count = truncCount ((1 : ℚ) + (1 - a.alpha) * (a.count : ℚ)) ∧
    a.getAverage = (if 0 < a.count then a.sum / (a.count : ℚ) else 0) ∧
    (a.alpha = 0 → (a.addValue x).count = a.count + 1) ∧
    (ca.addValue cx).sum = cx.add (CQ.smul (1 - ca.alpha) ca.sum) ∧
    (ca.addValue cx).count = truncCount ((1 : ℚ) + (1 - ca.alpha) * (ca.count : ℚ)) ∧
    ca.getAverage = (if 0 < ca.count then ca.sum.divReal (ca.count : ℚ) else CQ.zero) ∧
    (ca.alpha = 0 → (ca.addValue cx).count = ca.count + 1) := by
  refine ⟨rfl, rfl, rfl, ?_, rfl, rfl, rfl, ?_⟩
  · intro h
    simp [RealWeightedAccum.addValue, h, truncCount_one_add_nat]
  · intro h
    simp [ComplexWeightedAccum.addValue, h, truncCount_one_add_nat]

/-- Witness for the amended C3: on fresh alpha = 0 accumulators, one
`addValue` call takes the count from 0 to 1. -/
theorem accum_reference_defs_witness :
    ((RealWeightedAccum.init 0).addValue 2).count = 0 + 1 ∧
    ((ComplexWeightedAccum.init 0).addValue (CQ.mk 1 1)).count = 0 + 1 :=
  ⟨(accum_reference_defs (RealWeightedAccum.init 0) 2
      (ComplexWeightedAccum.init 0) (CQ.mk 1 1)).2.2.2.1 rfl,
   (accum_reference_defs (RealWeightedAccum.init 0) 2
      (ComplexWeightedAccum.init 0) (CQ.mk 1 1)).2.2.2.2.2.2.2 rfl⟩

/-- With alpha = 0, folding `addValue` over a list adds the list's sum to
`sum` and its length to `count`. -/
theorem rwAccum_foldl_alpha0 (l : List ℚ) (a : RealWeightedAccum) (ha : a.alpha = 0) :
    (l.foldl RealWeightedAccum.addValue a).sum = a.sum + l.sum ∧
    (l.foldl RealWeightedAccum.addValue a).count = a.count + l.length ∧
    (l.foldl RealWeightedAccum.addValue a).alpha = 0 := by
  induction l generalizing a with
  | nil => simpa using ha
  | cons x xs ih =>
      obtain ⟨h1, h2, h3⟩ := ih (a.addValue x) (by simp [RealWeightedAccum.addValue, ha])
      refine ⟨?_, ?_, h3⟩
      · rw [List.foldl_cons, h1]
        simp [RealWeightedAccum.addValue, ha]
        ring
      · rw [List.foldl_cons, h2]
        simp [RealWeightedAccum.addValue, ha, truncCount_one_add_nat]
        omega

/-- Complex flavor of the alpha = 0 fold lemma, componentwise. -/
theorem cwAccum_foldl_alpha0 (l : List CQ) (a : ComplexWeightedAccum) (ha : a.alpha = 0) :
    (l.foldl ComplexWeightedAccum.addValue a).sum.re = a.sum.re + (l.map CQ.re).sum ∧
    (l.foldl ComplexWeightedAccum.addValue a).sum.im = a.sum.im + (l.map CQ.im).sum ∧
    (l.foldl ComplexWeightedAccum.addValue a).count = a.count + l.length ∧
    (l.foldl ComplexWeightedAccum.addValue a).alpha = 0 := by
  induction l generalizing a with
  | nil => simpa using ha
  | cons x xs ih =>
      obtain ⟨h1, h2, h3, h4⟩ := ih (a.addValue x)
        (by simp [ComplexWeightedAccum.addValue, ha])
      refine ⟨?_, ?_, ?_, h4⟩
      · rw [List.foldl_cons, h1]
        simp [ComplexWeightedAccum.addValue, ha, CQ.add, CQ.smul]
        ring
      · rw [List.foldl_cons, h2]
        simp [ComplexWeightedAccum.addValue, ha, CQ.add, CQ.smul]
        ring
      · rw [List.foldl_cons, h3]
        simp [ComplexWeightedAccum.addValue, ha, truncCount_one_add_nat]
        omega

/-- C4: with alpha = 0, `getAverage()` after N `addValue` calls returns
exactly the arithmetic mean of the N values (N >= 1), for the real flavor
and, componentwise, for the complex flavor. -/
theorem alphaZero_cumulative_mean (l : List ℚ) (lc : List CQ)
    (hl : l ≠ []) (hlc : lc ≠ []) :
    (l.foldl RealWeightedAccum.addValue (RealWeightedAccum.init 0)).getAverage
      = l.sum / (l.length : ℚ) ∧
    (lc.foldl ComplexWeightedAccum.addValue (ComplexWeightedAccum.init 0)).getAverage
      = CQ.mk ((lc.map CQ.re).sum / (lc.length : ℚ))
          ((lc.map CQ.im).sum / (lc.length : ℚ)) := by
  obtain ⟨h1, h2, -⟩ := rwAccum_foldl_alpha0 l (RealWeightedAccum.init 0) rfl
  obtain ⟨g1, g2, g3, -⟩ := cwAccum_foldl_alpha0 lc (ComplexWeightedAccum.init 0) rfl
  have hpos : 0 < l.length := List.length_pos.mpr hl
  have hposc : 0 < lc.length := List.length_pos.mpr hlc
  replace h1 : (l.foldl RealWeightedAccum.addValue (RealWeightedAccum.init 0)).sum
      = 0 + l.sum := h1
  replace h2 : (l.foldl RealWeightedAccum.addValue (RealWeightedAccum.init 0)).count
      = 0 + l.length := h2
  replace g1 : (lc.foldl ComplexWeightedAccum.addValue (ComplexWeightedAccum.init 0)).sum.re
      = 0 + (lc.map CQ.re).sum := g1
  replace g2 : (lc.foldl ComplexWeightedAccum.addValue (ComplexWeightedAccum.init 0)).sum.im
      = 0 + (lc.map CQ.im).sum := g2
  replace g3 : (lc.foldl ComplexWeightedAccum.addValue (ComplexWeightedAccum.init 0)).count
      = 0 + lc.length := g3
  rw [zero_add] at h1 g1 g2
  rw [Nat.zero_add] at h2 g3
  constructor
  · simp only [RealWeightedAccum.getAverage]
    rw [h1, h2, if_pos hpos]
  · simp only [ComplexWeightedAccum.getAverage]
    rw [g3, if_pos hposc]
    simp only [CQ.divReal]
    rw [g1, g2]

/-- Witness for C4 on the lists [1, 2] and [1 + 0i]. -/
theorem alphaZero_cumulative_mean_witness :
    ([(1 : ℚ), 2].foldl RealWeightedAccum.addValue (RealWeightedAccum.init 0)).getAverage
      = ([(1 : ℚ), 2].sum) / (([(1 : ℚ), 2].length : ℚ)) ∧
    ([CQ.mk 1 0].foldl ComplexWeightedAccum.addValue (ComplexWeightedAccum.init 0)).getAverage
      = CQ.mk (([CQ.mk 1 0].map CQ.re).sum / (([CQ.mk 1 0].length : ℚ)))
          (([CQ.mk 1 0].map CQ.im).sum / (([CQ.mk 1 0].length : ℚ))) :=
  alphaZero_cumulative_mean [1, 2] [CQ.mk 1 0] (by decide) (by decide)

/-- Folding `addValue` over a list accumulates count, sum and sum of
squares of the recorded values. -/
theorem realAccum_foldl_stats {α : Type} (g : α → ℚ) (l : List α) (a : RealAccum) :
    (l.foldl (fun acc t => acc.addValue (g t)) a).count = a.count + l.length ∧
    (l.foldl (fun acc t => acc.addValue (g t)) a).sum = a.sum + (l.map g).sum ∧
    (l.foldl (fun acc t => acc.addValue (g t)) a).sumSquares
      = a.sumSquares + (l.map fun t => g t * g t).sum := by
  induction l generalizing a with
  | nil => simp
  | cons x xs ih =>
      obtain ⟨h1, h2, h3⟩ := ih (a.addValue (g x))
      refine ⟨?_, ?_, ?_⟩
      · rw [List.foldl_cons, h1]
        simp only [RealAccum.addValue, List.length_cons]
        omega
      · rw [List.foldl_cons, h2]
        simp only [RealAccum.addValue, List.map_cons, List.sum_cons]
        ring
      · rw [List.foldl_cons, h3]
        simp only [RealAccum.addValue, List.map_cons, List.sum_cons]
        ring

/-- The mean reported by a statistics accumulator fed a list of values is
the list's sum over its length. -/
theorem realAccum_fold_getAverage {α : Type} (g : α → ℚ) (l : List α) :
    (l.foldl (fun acc t => acc.addValue (g t)) RealAccum.init).getAverage
      = (l.map g).sum / (l.length : ℚ) := by
  by_cases hl : l = []
  · subst hl
    simp [RealAccum.init, RealAccum.getAverage]
  · have hpos : 0 < l.length := List.length_pos.mpr hl
    obtain ⟨h1, h2, -⟩ := realAccum_foldl_stats g l RealAccum.init
    replace h1 : (l.foldl (fun acc t => acc.addValue (g t)) RealAccum.init).count
        = 0 + l.length := h1
    replace h2 : (l.foldl (fun acc t => acc.addValue (g t)) RealAccum.init).sum
        = 0 + (l.map g).sum := h2
    rw [Nat.zero_add] at h1
    rw [zero_add] at h2
    simp only [RealAccum.getAverage]
    rw [h1, h2, if_pos hpos]

/-- The population variance reported by a statistics accumulator fed a
list of values, in closed form. -/
theorem realAccum_fold_getVariance {α : Type} (g : α → ℚ) (l : List α) :
    (l.foldl (fun acc t => acc.addValue (g t)) RealAccum.init).getVariance
      = ((l.map fun t => g t * g t).sum
          - (l.map g).sum * (l.map g).sum / (l.length : ℚ)) / (l.length : ℚ) := by
  by_cases hl : l = []
  · subst hl
    simp [RealAccum.init, RealAccum.getVariance]
  · have hpos : 0 < l.length := List.length_pos.mpr hl
    obtain ⟨h1, h2, h3⟩ := realAccum_foldl_stats g l RealAccum.init
    replace h1 : (l.foldl (fun acc t => acc.addValue (g t)) RealAccum.init).count
        = 0 + l.length := h1
    replace h2 : (l.foldl (fun acc t => acc.addValue (g t)) RealAccum.init).sum
        = 0 + (l.map g).sum := h2
    replace h3 : (l.foldl (fun acc t => acc.addValue (g t)) RealAccum.init).sumSquares
        = 0 + (l.map fun t => g t * g t).sum := h3
    rw [Nat.zero_add] at h1
    rw [zero_add] at h2 h3
    simp only [RealAccum.getVariance]
    rw [h1, h2, h3, if_pos hpos]

/-- Folding plain addition of `0 + g t` over a list (the shape of the
`Totalpower`/`avg` loop in `getPowerForChannels`) computes the sum. -/
theorem foldl_add_sum {α : Type} (g : α → ℚ) (l : List α) (c : ℚ) :
    l.foldl (fun avg t => avg + ((0 : ℚ) + g t)) c = c + (l.map g).sum := by
  induction l generalizing c with
  | nil => simp
  | cons x xs ih =>
      rw [List.foldl_cons, ih]
      simp only [List.map_cons, List.sum_cons]
      ring

/-- C10: `getPowerForChannels` is a pure query: it returns, for each
channel and frequency, the mean over the `nTimes` time bins of the power
accumulators' `getAverage()` values, leaves every accumulator, the
spectrum buffer and the wavelet array unchanged, and two consecutive
calls with no intervening `addTrial` return equal results. -/
theorem getPowerForChannels_pure {nChans nFreqs nTimes nCombs : ℕ}
    (s : TFRState nChans nFreqs nTimes nCombs) :
    (getPowerForChannels s).2 = s ∧
    (∀ chn frq, (getPowerForChannels s).1 chn frq =
      (∑ t : Fin nTimes, (s.powBuffer chn frq t).getAverage) / (nTimes : ℚ)) ∧
    getPowerForChannels ((getPowerForChannels s).2) = getPowerForChannels s := by
  refine ⟨rfl, ?_, rfl⟩
  intro chn frq
  show ((List.finRange nTimes).foldl
      (fun avg pr => avg + ((0 : ℚ) + (s.powBuffer chn frq pr).getAverage)) 0)
      / (nTimes : ℚ) = _
  rw [foldl_add_sum (fun t => (s.powBuffer chn frq t).getAverage)
    (List.finRange nTimes) 0]
  rw [Fin.sum_univ_def]
  simp

/-- C5: `getMeanCoherence(chanX, chanY, meanDest, comb)` first
accumulates, for each frequency and time bin, the product
`spectrum[chanX][f][t] * conj(spectrum[chanY][f][t])` into the
cross-spectrum accumulator of `(comb, f, t)` (leaving all other
accumulators and buffers untouched), then writes into `meanDest[f]` the
mean over the `nTimes` time bins of
`|E[Pxy]|^2 / (E[Pxx] * E[Pyy])` computed from the updated cross-spectrum
average and the two channels' power averages; the Bessel-corrected
variance estimate `Var * nTimes / (nTimes - 1)` is computed and is zero
when `nTimes < 2`. -/
theorem getMeanCoherence_spec {nChans nFreqs nTimes nCombs : ℕ}
    (itX itY : Fin nChans) (comb : Fin nCombs)
    (s : TFRState nChans nFreqs nTimes nCombs) :
    (∀ f t, (getMeanCoherence itX itY comb s).2.2.pxys comb f t =
      (s.pxys comb f t).addValue
        ((s.spectrumBuffer itX f t).mul ((s.spectrumBuffer itY f t).conj))) ∧
    (∀ cb f t, cb ≠ comb →
      (getMeanCoherence itX itY comb s).2.2.pxys cb f t = s.pxys cb f t) ∧
    (getMeanCoherence itX itY comb s).2.2.spectrumBuffer = s.spectrumBuffer ∧
    (getMeanCoherence itX itY comb s).2.2.powBuffer = s.powBuffer ∧
    (getMeanCoherence itX itY comb s).2.2.waveletArray = s.waveletArray ∧
    (∀ f, (getMeanCoherence itX itY comb s).1 f =
      (∑ t : Fin nTimes,
        singleCoherence ((s.powBuffer itX f t).getAverage)
          ((s.powBuffer itY f t).getAverage)
          (((s.pxys comb f t).addValue
            ((s.spectrumBuffer itX f t).mul
              ((s.spectrumBuffer itY f t).conj))).getAverage)) / (nTimes : ℚ)) ∧
    (∀ f, (getMeanCoherence itX itY comb s).2.1 f =
      if nTimes < 2 then 0 else
        ((∑ t : Fin nTimes,
          singleCoherence ((s.powBuffer itX f t).getAverage)
            ((s.powBuffer itY f t).getAverage)
            (((s.pxys comb f t).addValue
              ((s.spectrumBuffer itX f t).mul
                ((s.spectrumBuffer itY f t).conj))).getAverage) *
          singleCoherence ((s.powBuffer itX f t).getAverage)
            ((s.powBuffer itY f t).getAverage)
            (((s.pxys comb f t).addValue
              ((s.spectrumBuffer itX f t).mul
                ((s.spectrumBuffer itY f t).conj))).getAverage))
          - (∑ t : Fin nTimes,
              singleCoherence ((s.powBuffer itX f t).getAverage)
                ((s.powBuffer itY f t).getAverage)
                (((s.pxys comb f t).addValue
                  ((s.spectrumBuffer itX f t).mul
                    ((s.spectrumBuffer itY f t).conj))).getAverage)) *
            (∑ t : Fin nTimes,
              singleCoherence ((s.powBuffer itX f t).getAverage)
                ((s.powBuffer itY f t).getAverage)
                (((s.pxys comb f t).addValue
                  ((s.spectrumBuffer itX f t).mul
                    ((s.spectrumBuffer itY f t).conj))).getAverage)) / (nTimes : ℚ))
          / (nTimes : ℚ) * (nTimes : ℚ) / ((nTimes : ℚ) - 1)) := by
  refine ⟨?_, ?_, rfl, rfl, rfl, ?_, ?_⟩
  · intro f t
    simp [getMeanCoherence]
  · intro cb f t hne
    simp [getMeanCoherence, hne]
  · intro f
    simp only [getMeanCoherence]
    simp only [eq_self_iff_true, if_true]
    rw [realAccum_fold_getAverage
      (fun t => singleCoherence ((s.powBuffer itX f t).getAverage)
        ((s.powBuffer itY f t).getAverage)
        (((s.pxys comb f t).addValue
          ((s.spectrumBuffer itX f t).mul
            ((s.spectrumBuffer itY f t).conj))).getAverage))
      (List.finRange nTimes)]
    rw [Fin.sum_univ_def]
    simp
  · intro f
    simp only [getMeanCoherence]
    simp only [eq_self_iff_true, if_true]
    by_cases h2 : nTimes < 2
    · simp [h2]
    · rw [if_neg h2, if_neg h2]
      rw [realAccum_fold_getVariance
        (fun t => singleCoherence ((s.powBuffer itX f t).getAverage)
          ((s.powBuffer itY f t).getAverage)
          (((s.pxys comb f t).addValue
            ((s.spectrumBuffer itX f t).mul
              ((s.spectrumBuffer itY f t).conj))).getAverage))
        (List.finRange nTimes)]
      rw [Fin.sum_univ_def, Fin.sum_univ_def]
      simp

/-- Witness for C5 at a concrete 1-channel, 1-frequency, 1-time-bin,
2-combination instance with fresh accumulators and a zero spectrum: the
untouched-combination conjunct is applied at combination 1 while
combination 0 is updated. -/
theorem getMeanCoherence_spec_witness :
    (getMeanCoherence (0 : Fin 1) (0 : Fin 1) (0 : Fin 2)
      (TFRState.mk (fun _ _ _ => CQ.zero)
        (fun _ _ _ => ComplexWeightedAccum.init 0)
        (fun _ _ _ => RealWeightedAccum.init 0)
        (fun _ => []) : TFRState 1 1 1 2)).2.2.pxys (1 : Fin 2) (0 : Fin 1) (0 : Fin 1) =
    (TFRState.mk (fun _ _ _ => CQ.zero)
      (fun _ _ _ => ComplexWeightedAccum.init 0)
      (fun _ _ _ => RealWeightedAccum.init 0)
      (fun _ => []) : TFRState 1 1 1 2).pxys (1 : Fin 2) (0 : Fin 1) (0 : Fin 1) :=
  (getMeanCoherence_spec (0 : Fin 1) (0 : Fin 1) (0 : Fin 2)
    (TFRState.mk (fun _ _ _ => CQ.zero)
      (fun _ _ _ => ComplexWeightedAccum.init 0)
      (fun _ _ _ => RealWeightedAccum.init 0)
      (fun _ => []) : TFRState 1 1 1 2)).2.1 (1 : Fin 2) (0 : Fin 1) (0 : Fin 1) (by decide)

/-- Adding NaN to anything gives NaN. -/
theorem fp_add_nan_right (x : Fp) : x.add Fp.nan = Fp.nan := by
  cases x <;> rfl

/-- A running floating-point sum that has become NaN stays NaN. -/
theorem fp_foldl_add_nan (l : List Fp) : l.foldl Fp.add Fp.nan = Fp.nan := by
  induction l with
  | nil => rfl
  | cons x xs ih =>
      rw [List.foldl_cons]
      have h : Fp.add Fp.nan x = Fp.nan := by cases x <;> rfl
      rw [h, ih]

/-- C8: when either channel's average power accumulator is exactly zero
and the cross-spectrum accumulator holds no data yet (so its average is
the zero complex value), `singleCoherence` evaluates to 0/0 = NaN in
IEEE arithmetic; and NaN is propagated as a value through the mean that
`getMeanCoherence` writes: any mean over a list of values containing a
NaN is NaN, not an error. -/
theorem zeroPower_nan (ax ay : RealWeightedAccum) (pc : ComplexWeightedAccum)
    (hzero : ax.getAverage = 0 ∨ ay.getAverage = 0) (hc : pc.count = 0) :
    singleCoherenceFp (Fp.num ax.getAverage) (Fp.num ay.getAverage)
      (FpC.mk (Fp.num pc.getAverage.re) (Fp.num pc.getAverage.im)) = Fp.nan ∧
    (∀ l1 l2 : List Fp, FpMean (l1 ++ Fp.nan :: l2) = Fp.nan) := by
  constructor
  · have havg : pc.getAverage = CQ.zero := by
      rw [ComplexWeightedAccum.getAverage, hc]
      simp
    rw [havg]
    rcases hzero with h | h <;> rw [h] <;>
      simp [singleCoherenceFp, FpC.normSq, Fp.mul, Fp.add, Fp.div, CQ.zero]
  · intro l1 l2
    rw [FpMean, List.foldl_append, List.foldl_cons,
      fp_add_nan_right, fp_foldl_add_nan]
    rfl

/-- Witness for C8 on fresh accumulators and a singleton NaN list. -/
theorem zeroPower_nan_witness :
    singleCoherenceFp (Fp.num ((RealWeightedAccum.init 0).getAverage))
      (Fp.num ((RealWeightedAccum.init 0).getAverage))
      (FpC.mk (Fp.num (((ComplexWeightedAccum.init 0).getAverage).re))
        (Fp.num (((ComplexWeightedAccum.init 0).getAverage).im))) = Fp.nan ∧
    FpMean ([] ++ Fp.nan :: []) = Fp.nan := by
  have h := zeroPower_nan (RealWeightedAccum.init 0) (RealWeightedAccum.init 0)
    (ComplexWeightedAccum.init 0) (Or.inl rfl) rfl
  exact ⟨h.1, h.2 [] []⟩
